import Mathlib

/-!
Shallow embedding of `implementations/compucell3d/post/aggregate_stats.py`
(PersistentCell repository) and verification of its specification.

Modelling conventions:
* A Python `dict` is an insertion-ordered association list; keys are unique.
* A `numpy` 1-D array of numbers is a `List ℚ` (the script performs no
  arithmetic on the values, only slicing and re-indexing, so the exact
  numeric type is irrelevant; the `time` axis is stored with `dtype=int`
  and the `com_*` series with `dtype=float`, both modelled as `ℚ`).
* A 2-D `numpy` array of shape (rows, cols) is its row-major nested-list
  form `List (List ℚ)`, exactly the value `ndarray.tolist()` produces.
* Fallible code (Python exceptions) returns `Option`.
-/

namespace AggregateStats

/-- One per-run record, as built by `load_results` (lines 24-26 of the
source): a Python dict mapping a series name (`time`, `com_1`, `com_2`)
to its array, modelled as an ordered association list. -/
abbrev RunRecord := List (String × List ℚ)

/-- A run collection `Dict[int, Dict[str, np.ndarray]]`: run id → record,
in insertion order. -/
abbrev Results := List (Nat × RunRecord)

/-- Python `v[name]` on a record dict: the array stored under `name`
(first matching entry; `[]` when absent — real code would raise
`KeyError`, and every use below guards on the key being present). -/
def getSeries (r : RunRecord) (name : String) : List ℚ :=
  (r.lookup name).getD []

/-- `v['time'].shape[0]` (line 34): length of a record's time axis. -/
def timeLen (r : RunRecord) : Nat :=
  (getSeries r "time").length

/-- Lines 32-35 of `clean_results`: the running-minimum loop
`min_steps = num_steps if min_steps is None else min(min_steps, num_steps)`
over the records, starting from `None`. -/
def minSteps (results : Results) : Option Nat :=
  results.foldl
    (fun acc p =>
      match acc with
      | none => some (timeLen p.2)
      | some m => some (min m (timeLen p.2)))
    none

/-- Lines 39-41: slice every array of one record to its first `n` entries
(`vv[:min_steps]`). -/
def truncRecord (n : Nat) (r : RunRecord) : RunRecord :=
  r.map fun sv => (sv.1, sv.2.take n)

/-- `clean_results` (lines 31-43): compute `min_steps`, then rebuild the
collection with every array sliced to `[:min_steps]`, preserving
iteration order.  On an empty collection the loops run zero times and the
function returns `({}, None)`; the `getD 0` default is never consulted
because the rebuild loop is empty exactly when `min_steps` is `None`. -/
def clean_results (results : Results) : Results × Option Nat :=
  let min_steps := minSteps results
  (results.map fun p => (p.1, truncRecord (min_steps.getD 0) p.2), min_steps)

/-- `format_ssr` (lines 46-66).  `none` models the exceptions the Python
code raises: `IndexError` on an empty collection (line 48,
`list(results_data.keys())[0]`), `ValueError` when the sample record has
no `time` key (line 57, `results_names.remove('time')`), and the numpy
broadcast `ValueError` when a column assignment
`results[name][:, i] = cleaned_data[rep_num][name][:]` (line 64) is fed
an array whose length differs from `min_steps`.  The returned triple is
`(num_reps, results_times, results)`; each stacked 2-D array of shape
`(min_steps, num_reps)` is given in row-major nested-list form, entry
`[t][i]` holding series value `t` of the `i`-th run in iteration order.
Note line 60: `results_times = results_data[sample_int]['time']` reads
the time axis of the ORIGINAL first record, not of `cleaned_data`. -/
def format_ssr (results_data : Results) (clean : Bool) :
    Option (Nat × List ℚ × List (String × List (List ℚ))) :=
  match results_data with
  | [] => none
  | (_, sample) :: _ =>
    let cleaned_data := if clean then results_data else (clean_results results_data).1
    let min_steps := if clean then timeLen sample else (clean_results results_data).2.getD 0
    let num_reps := results_data.length
    if "time" ∈ sample.map Prod.fst then
      let results_names := (sample.map Prod.fst).erase "time"
      let results_times := getSeries sample "time"
      if cleaned_data.all (fun kv => results_names.all fun name =>
          (getSeries kv.2 name).length == min_steps) then
        some (num_reps, results_times,
          results_names.map fun name =>
            (name, (List.range min_steps).map fun t =>
              cleaned_data.map fun kv => (getSeries kv.2 name).getD t 0))
      else none
    else none

/-- Lines 84-88 of `generate_plots`: the treatment of the caller's
`results_names` list — `if 'time' in results_names:
results_names.remove('time')`.  Python `list.remove` deletes the FIRST
occurrence in place; the returned list is the caller's list after the
call.  (The `results_names is None` branch builds a fresh local list and
is not observable by the caller.) -/
def generate_plots_names (results_names : List String) : List String :=
  if "time" ∈ results_names then results_names.erase "time" else results_names

/-- Abstract file system for the directory handling of
`aggregate_stats`: the set of directories that exist, as a list. -/
abbrev FS := List String

/-- `os.path.isdir` over the abstract file system. -/
def isdir (fs : FS) (p : String) : Bool :=
  fs.contains p

/-- Lines 125-128 of `aggregate_stats`, the directory prologue executed
before anything else:
`if not os.path.isdir(results_dir): raise NotADirectoryError(results_dir)`
then `if not os.path.isdir(output_dir): os.makedirs(output_dir)`.
Returns the file system after the prologue and `some d` when
`NotADirectoryError(d)` was raised (`none` when no error). -/
def aggregate_stats_dirs (fs : FS) (results_dir output_dir : String) :
    FS × Option String :=
  if ¬ isdir fs results_dir then (fs, some results_dir)
  else if ¬ isdir fs output_dir then (output_dir :: fs, none)
  else (fs, none)

/-- JSON values, to the extent `ssr.json` uses them (lines 151-160):
numbers, arrays and string-keyed objects.  The textual layer written by
`json.dump` and re-read by `json.load` is abstracted away; the claim
under verification is stated modulo JSON numeric precision, so the tree
is the faithful unit of round-tripping. -/
inductive Json where
  | num (q : ℚ)
  | arr (xs : List Json)
  | obj (fields : List (String × Json))

/-- The object written to `ssr.json` (lines 151-158):
`{'num_reps': num_reps, 'times': ssr_results_times.tolist(),
'results': {k: v.tolist() for k, v in ssr_results.items()}}`. -/
def ssrToJson (num_reps : Nat) (times : List ℚ)
    (results : List (String × List (List ℚ))) : Json :=
  .obj [("num_reps", .num num_reps),
        ("times", .arr (times.map .num)),
        ("results", .obj (results.map fun kv =>
          (kv.1, .arr (kv.2.map fun row => .arr (row.map .num)))))]

/-- Read back a JSON number that is a non-negative integer. -/
def jAsNat : Json → Option Nat
  | .num q => if q.den = 1 ∧ 0 ≤ q.num then some q.num.toNat else none
  | _ => none

/-- Read back the elements of a JSON array of numbers. -/
def jAsRatListAux : List Json → Option (List ℚ)
  | [] => some []
  | .num q :: rest => (jAsRatListAux rest).map fun l => q :: l
  | _ => none

/-- Read back a JSON array of numbers. -/
def jAsRatList : Json → Option (List ℚ)
  | .arr xs => jAsRatListAux xs
  | _ => none

/-- Read back the rows of a JSON array of arrays of numbers. -/
def jAsMatrixAux : List Json → Option (List (List ℚ))
  | [] => some []
  | j :: rest =>
    match jAsRatList j with
    | some row => (jAsMatrixAux rest).map fun m => row :: m
    | none => none

/-- Read back a JSON array of arrays of numbers (a 2-D array). -/
def jAsMatrix : Json → Option (List (List ℚ))
  | .arr rows => jAsMatrixAux rows
  | _ => none

/-- Read back the fields of the `results` object: name → 2-D array. -/
def jAsResultsAux : List (String × Json) → Option (List (String × List (List ℚ)))
  | [] => some []
  | kv :: rest =>
    match jAsMatrix kv.2 with
    | some m => (jAsResultsAux rest).map fun l => (kv.1, m) :: l
    | none => none

/-- Read back the `results` object: series name → 2-D array. -/
def jAsResults : Json → Option (List (String × List (List ℚ)))
  | .obj fields => jAsResultsAux fields
  | _ => none

/-- Parse a loaded `ssr.json` value back into the exported triple
`(num_reps, times, results)`. -/
def parseSsr (j : Json) : Option (Nat × List ℚ × List (String × List (List ℚ))) :=
  match j with
  | .obj fields =>
    match fields.lookup "num_reps", fields.lookup "times", fields.lookup "results" with
    | some jn, some jt, some jr =>
      match jAsNat jn, jAsRatList jt, jAsResults jr with
      | some n, some t, some r => some (n, t, r)
      | _, _, _ => none
    | _, _, _ => none
  | _ => none

/-- `List.isPrefixOf` spelt out on characters, for the string helpers
below. -/
def leadsWith : List Char → List Char → Bool
  | [], _ => true
  | _ :: _, [] => false
  | p :: ps, c :: cs => (p == c) && leadsWith ps cs

/-- Remove every (left-to-right, non-overlapping) occurrence of `pat`
from `s` — Python `s.replace(pat, '')` (line 17 uses `replace` only with
the empty replacement).  Structural recursion on a fuel argument equal
to the length of `s`, which each step strictly exceeds consumption of,
so the fuel never runs out. -/
def stripAllFuel (pat : List Char) : Nat → List Char → List Char
  | 0, s => s
  | _ + 1, [] => []
  | fuel + 1, c :: rest =>
    if pat ≠ [] && leadsWith pat (c :: rest) then
      stripAllFuel pat fuel (rest.drop (pat.length - 1))
    else
      c :: stripAllFuel pat fuel rest

/-- Python `s.replace(pat, '')`. -/
def pyReplaceEmpty (s pat : String) : String :=
  ⟨stripAllFuel pat.data s.data.length s.data⟩

/-- Python `s.startswith(p)`. -/
def pyStartsWith (s p : String) : Bool :=
  leadsWith p.data s.data

/-- Python `s.endswith(p)`. -/
def pyEndsWith (s p : String) : Bool :=
  leadsWith p.data.reverse s.data.reverse

/-- Python `int(s)` for the decimal digit strings that arise from file
names (`none` models `ValueError` on anything else; signs, surrounding
whitespace and underscores, which `int` also accepts, never arise
here). -/
def pyInt (s : String) : Option Nat :=
  if s.data ≠ [] ∧ s.data.all Char.isDigit then
    some (s.data.foldl (fun n c => 10 * n + (c.toNat - 48)) 0)
  else none

/-- Python dict insertion: an existing key keeps its position and takes
the new value, a new key is appended. -/
def dictInsert {α : Type} (d : List (Nat × α)) (k : Nat) (v : α) : List (Nat × α) :=
  if d.any fun p => p.1 == k then
    d.map fun p => if p.1 == k then (k, v) else p
  else d ++ [(k, v)]

/-- Line 17: `int(f.replace('sim_', '').replace('.json', ''))`. -/
def parseRunNum (f : String) : Option Nat :=
  pyInt (pyReplaceEmpty (pyReplaceEmpty f "sim_") ".json")

/-- `load_results` (lines 15-28) over an abstract directory listing.
`files` is what `os.listdir` returned; `contents` gives the parsed JSON
record of each file (file reading and `json.load` are abstracted; the
claims under verification concern only the file-name handling).  Line 16
filters names starting with `sim_` and ending with `.json`; line 17
parses the run number of every kept file (`none` when `int` raises);
line 18 builds the dict `results_files_map`, so two file names that
parse to the same number collapse onto one key, the later file's path
winning; lines 20-26 then load one record per KEY of that dict. -/
def load_results (files : List String) (contents : String → RunRecord) :
    Option (List (Nat × String) × Results) :=
  let results_files := files.filter fun f => pyStartsWith f "sim_" && pyEndsWith f ".json"
  match results_files.mapM (fun f => (parseRunNum f).map fun n => (n, f)) with
  | none => none
  | some numbered =>
    let results_files_map := numbered.foldl (fun d p => dictInsert d p.1 p.2) []
    some (results_files_map, results_files_map.map fun p => (p.1, contents p.2))

/-- Directory contents for the duplicate-run-id scenario: the two file
names `sim_1.json` and `sim_01.json` both parse to run number 1, and the
two files hold distinguishable records. -/
def dupDirContents (f : String) : RunRecord :=
  if f = "sim_01.json" then [("time", [0])] else [("time", [9])]

end AggregateStats

namespace AggregateStats

/-- Once the running minimum is `some a`, the loop of `minSteps` is the
plain fold of `min` over the remaining time-axis lengths. -/
theorem minSteps_foldl_some (l : Results) (a : Nat) :
    l.foldl
      (fun acc p =>
        match acc with
        | none => some (timeLen p.2)
        | some m => some (min m (timeLen p.2)))
      (some a)
      = some ((l.map fun q => timeLen q.2).foldl min a) := by
  induction l generalizing a with
  | nil => rfl
  | cons q qs ih => simpa using ih (min a (timeLen q.2))

/-- On a non-empty collection `minSteps` is the fold of `min` over the
time-axis lengths, seeded with the first record's length. -/
theorem minSteps_cons (p : Nat × RunRecord) (ps : Results) :
    minSteps (p :: ps) =
      some ((ps.map fun q => timeLen q.2).foldl min (timeLen p.2)) := by
  simpa [minSteps] using minSteps_foldl_some ps (timeLen p.2)

/-- The fold of `min` never exceeds its seed. -/
theorem foldl_min_le_init (l : List ℕ) (a : ℕ) : l.foldl min a ≤ a := by
  induction l generalizing a with
  | nil => exact Nat.le_refl a
  | cons x xs ih => exact Nat.le_trans (ih (min a x)) (Nat.min_le_left a x)

/-- The fold of `min` is a lower bound of every element. -/
theorem foldl_min_le_mem (l : List ℕ) (a x : ℕ) (hx : x ∈ l) :
    l.foldl min a ≤ x := by
  induction l generalizing a with
  | nil => cases hx
  | cons y ys ih =>
    simp only [List.foldl_cons]
    rcases List.mem_cons.mp hx with h | h
    · subst h
      exact Nat.le_trans (foldl_min_le_init ys (min a x)) (Nat.min_le_right a x)
    · exact ih (min a y) h

/-- The fold of `min` is its seed or one of the elements. -/
theorem foldl_min_attained (l : List ℕ) (a : ℕ) :
    l.foldl min a = a ∨ l.foldl min a ∈ l := by
  induction l generalizing a with
  | nil => exact Or.inl rfl
  | cons x xs ih =>
    rcases ih (min a x) with h | h
    · rcases Nat.le_total a x with hax | hxa
      · exact Or.inl (by simpa [Nat.min_eq_left hax] using h)
      · exact Or.inr (by simp [List.foldl_cons]; left; simpa [Nat.min_eq_right hxa] using h)
    · exact Or.inr (List.mem_cons_of_mem x (by simpa using h))

/-- If the seed is a lower bound of every element, the fold of `min` is
the seed. -/
theorem foldl_min_of_le (l : List ℕ) (a : ℕ) (h : ∀ x ∈ l, a ≤ x) :
    l.foldl min a = a := by
  induction l with
  | nil => rfl
  | cons x xs ih =>
    have hax : min a x = a := Nat.min_eq_left (h x (List.mem_cons_self x xs))
    simpa [hax] using ih (fun y hy => h y (List.mem_cons_of_mem x hy))

/-- The first component of `clean_results`, once `min_steps` is known. -/
theorem clean_results_fst (results : Results) (m : Nat)
    (h : minSteps results = some m) :
    (clean_results results).1 = results.map fun p => (p.1, truncRecord m p.2) := by
  simp [clean_results, h]

/-- The second component of `clean_results` is the computed minimum. -/
theorem clean_results_snd (results : Results) :
    (clean_results results).2 = minSteps results := rfl

/-- `List.lookup` through a value-only rewrite of an association list. -/
theorem lookup_map_value (r : RunRecord) (f : List ℚ → List ℚ) (name : String) :
    (r.map fun sv => (sv.1, f sv.2)).lookup name = (r.lookup name).map f := by
  induction r with
  | nil => rfl
  | cons sv svs ih =>
    cases h : name == sv.1 <;> simp [List.lookup, h, ih]

/-- Truncating a record truncates each of its series. -/
theorem getSeries_truncRecord (n : Nat) (r : RunRecord) (name : String) :
    getSeries (truncRecord n r) name = (getSeries r name).take n := by
  unfold getSeries truncRecord
  rw [lookup_map_value]
  cases r.lookup name <;> simp

/-- Time-axis length of a truncated record. -/
theorem timeLen_truncRecord (n : Nat) (r : RunRecord) :
    timeLen (truncRecord n r) = min n (timeLen r) := by
  unfold timeLen
  rw [getSeries_truncRecord, List.length_take]

/-- Truncating a record twice to the same length is one truncation. -/
theorem truncRecord_idem (n : Nat) (r : RunRecord) :
    truncRecord n (truncRecord n r) = truncRecord n r := by
  simp [truncRecord, List.map_map, Function.comp_def, List.take_take]

/-- Elements of a truncated list agree with the original below the cut. -/
theorem getD_take_of_lt {α : Type} (l : List α) (n i : Nat) (hi : i < n) (d : α) :
    (l.take n).getD i d = l.getD i d := by
  rw [List.getD_eq_getElem?_getD, List.getD_eq_getElem?_getD,
    List.getElem?_take_of_lt hi]

/-- C2: the claim states that `clean_results` on an empty Run Collection
fails with an explicit error and never silently produces empty output.
The code does the opposite: with no records, the `min_steps` loop leaves
`min_steps = None` and the rebuild loop runs zero times, so the call
returns `({}, None)` — silent empty output, no exception raised on any
line of the function body. -/
theorem clean_results_empty_silent :
    clean_results ([] : Results) = ([], none) := by
  rfl

/-- C1: evaluation of `format_ssr` with `clean=False` at the claim's own
example collection.  The stacked `com_1` is `[[1,5],[2,6],[3,7]]` as the
claim says, but the returned time axis is `[0,1,2,3]` — the first
record's ORIGINAL, untruncated time axis (line 60 reads
`results_data[sample_int]['time']`, not `cleaned_data[...]`), of length
4, not the aligned axis `[0,1,2]` of length `min_steps = 3` that the
claim and the spec's invariant require. -/
theorem format_ssr_raw_time_axis :
    format_ssr [(0, [("time", [0, 1, 2, 3]), ("com_1", [1, 2, 3, 4])]),
                (1, [("time", [0, 1, 2]), ("com_1", [5, 6, 7])])] false
      = some (2, [0, 1, 2, 3], [("com_1", [[1, 5], [2, 6], [3, 7]])]) ∧
    ([0, 1, 2, 3] : List ℚ) ≠ [0, 1, 2] := by
  constructor
  · decide
  · decide

/-- C10: a directory listing with the two distinct file names
`sim_1.json` and `sim_01.json`, both matching the pattern (the filter
keeps both) and both parsing to run number 1.  `load_results` returns a
single record for id 1, one fewer than the number of matching files, and
the contents of `sim_1.json` (the record `[("time", [9])]`) appear
nowhere in the output: they are silently dropped in favour of the later
file `sim_01.json`. -/
theorem load_results_collapses_duplicates :
    load_results ["sim_1.json", "sim_01.json"] dupDirContents
      = some ([(1, "sim_01.json")], [(1, [("time", [0])])]) ∧
    (["sim_1.json", "sim_01.json"].filter fun f =>
      pyStartsWith f "sim_" && pyEndsWith f ".json").length = 2 ∧
    ([(1, [("time", [0])])] : Results).length = 1 ∧
    dupDirContents "sim_1.json" ∉ ([(1, [("time", [0])])] : Results).map Prod.snd := by
  refine ⟨by rfl, by decide, by decide, by decide⟩

/-- C8 counterexample: a caller's `results_names` list that contains
`'time'` twice.  `list.remove('time')` deletes only the first
occurrence, so after the call the caller's list still contains
`'time'`, contradicting the claim's "no longer contains 'time'". -/
theorem generate_plots_names_time_remains :
    generate_plots_names ["time", "time", "com_1"] = ["time", "com_1"] ∧
    "time" ∈ generate_plots_names ["time", "time", "com_1"] := by
  constructor
  · decide
  · decide

/-- C8 (amended): `generate_plots` rewrites the caller's `results_names`
list, in place, to the list with its FIRST occurrence of `'time'`
removed (lists without `'time'` are left unchanged, and a list that
contained `'time'` exactly once no longer contains it). -/
theorem generate_plots_names_spec (ns : List String) :
    generate_plots_names ns = ns.erase "time" ∧
    (ns.count "time" = 1 → "time" ∉ generate_plots_names ns) ∧
    ("time" ∉ ns → generate_plots_names ns = ns) := by
  refine ⟨?_, ?_, ?_⟩
  · by_cases h : "time" ∈ ns
    · simp [generate_plots_names, h]
    · simp [generate_plots_names, h, List.erase_of_not_mem h]
  · intro hc
    by_cases h : "time" ∈ ns
    · simp only [generate_plots_names, if_pos h]
      intro hmem
      have := List.count_erase_self "time" ns
      rw [hc] at this
      exact absurd (List.count_pos_iff.mpr hmem) (by omega)
    · intro hmem
      simp [generate_plots_names, h] at hmem
  · intro h
    simp [generate_plots_names, h]

/-- C8 witness: at the singly-occurring list `["time", "com_1"]` the
call removes `'time'` and the caller's list no longer contains it. -/
theorem generate_plots_names_spec_witness :
    generate_plots_names ["time", "com_1"] = ["com_1"] ∧
    "time" ∉ generate_plots_names ["time", "com_1"] :=
  ⟨((generate_plots_names_spec ["time", "com_1"]).1).trans (by decide),
   (generate_plots_names_spec ["time", "com_1"]).2.1 (by decide)⟩

/-- A small concrete Run Collection: two runs whose time axes have
lengths 2 and 1, so `min_steps = 1`. -/
def sampleRuns : Results :=
  [(0, [("time", [0, 1])]), (1, [("time", [0])])]

/-- C3: on a non-empty Run Collection satisfying the data-model
invariant (within each record every series has the length of that
record's time axis), `clean_results` returns `min_steps` equal to the
minimum time-axis length over all records — a lower bound that is
attained — and every array of every output record (the time axis
included) has length exactly `min_steps`. -/
theorem clean_results_aligned (results : Results) (hne : results ≠ [])
    (hinv : ∀ p ∈ results, ∀ sv ∈ p.2, sv.2.length = timeLen p.2) :
    ∃ m, (clean_results results).2 = some m ∧
      (∀ p ∈ results, m ≤ timeLen p.2) ∧
      (∃ p ∈ results, timeLen p.2 = m) ∧
      (∀ p ∈ (clean_results results).1, ∀ sv ∈ p.2, sv.2.length = m) := by
  obtain ⟨p0, ps, rfl⟩ := List.exists_cons_of_ne_nil hne
  set m := (ps.map fun r => timeLen r.2).foldl min (timeLen p0.2) with hm
  have hms : minSteps (p0 :: ps) = some m := minSteps_cons p0 ps
  have hle : ∀ q ∈ p0 :: ps, m ≤ timeLen q.2 := by
    intro q hq
    rcases List.mem_cons.mp hq with rfl | hq'
    · exact foldl_min_le_init _ _
    · exact foldl_min_le_mem _ _ _ (List.mem_map_of_mem _ hq')
  refine ⟨m, by rw [clean_results_snd]; exact hms, hle, ?_, ?_⟩
  · rcases foldl_min_attained (ps.map fun r => timeLen r.2) (timeLen p0.2) with h | h
    · exact ⟨p0, List.mem_cons_self _ _, h.symm⟩
    · obtain ⟨q, hq, hq2⟩ := List.mem_map.mp h
      exact ⟨q, List.mem_cons_of_mem _ hq, hq2⟩
  · intro q hq sv hsv
    rw [clean_results_fst _ m hms] at hq
    obtain ⟨r, hr, rfl⟩ := List.mem_map.mp hq
    obtain ⟨sv0, hsv0, rfl⟩ := List.mem_map.mp hsv
    simp only [List.length_take]
    rw [hinv r hr sv0 hsv0]
    exact Nat.min_eq_left (hle r hr)

/-- C3 witness: the two-run sample collection aligns to `min_steps = 1`. -/
theorem clean_results_aligned_witness :
    ∃ m, (clean_results sampleRuns).2 = some m ∧
      (∀ p ∈ sampleRuns, m ≤ timeLen p.2) ∧
      (∃ p ∈ sampleRuns, timeLen p.2 = m) ∧
      (∀ p ∈ (clean_results sampleRuns).1, ∀ sv ∈ p.2, sv.2.length = m) :=
  clean_results_aligned sampleRuns (by decide) (by decide)

/-- C4: truncation by `clean_results` keeps exactly the first
`min_steps` entries of every array of every run: the output record of
run `k` is the input record with every series replaced by its
`take min_steps`, the kept entries agree index-by-index with the
original entries at indices `[0, min_steps)`, and the kept length is
`min(min_steps, original length)` — a left-aligned slice, never a
suffix or any other subset. -/
theorem clean_results_first_entries (results : Results) (k : Nat) (r : RunRecord)
    (hk : (k, r) ∈ results) :
    ∃ m, (clean_results results).2 = some m ∧
      (k, r.map fun sv => (sv.1, sv.2.take m)) ∈ (clean_results results).1 ∧
      (∀ sv ∈ r, ∀ i, i < m → (sv.2.take m).getD i 0 = sv.2.getD i 0) ∧
      (∀ sv ∈ r, (sv.2.take m).length = min m sv.2.length) := by
  have hne : results ≠ [] := List.ne_nil_of_mem hk
  obtain ⟨p0, ps, rfl⟩ := List.exists_cons_of_ne_nil hne
  set m := (ps.map fun q => timeLen q.2).foldl min (timeLen p0.2) with hm
  have hms : minSteps (p0 :: ps) = some m := minSteps_cons p0 ps
  refine ⟨m, by rw [clean_results_snd]; exact hms, ?_, ?_, ?_⟩
  · rw [clean_results_fst _ m hms]
    exact List.mem_map_of_mem (fun p => (p.1, truncRecord m p.2)) hk
  · intro sv _ i hi
    exact getD_take_of_lt sv.2 m i hi 0
  · intro sv _
    exact List.length_take m sv.2

/-- C4 witness: run 0 of the sample collection is truncated to its
first entry. -/
theorem clean_results_first_entries_witness :
    ∃ m, (clean_results sampleRuns).2 = some m ∧
      (0, ([("time", [0, 1])] : RunRecord).map fun sv => (sv.1, sv.2.take m))
        ∈ (clean_results sampleRuns).1 ∧
      (∀ sv ∈ ([("time", [0, 1])] : RunRecord), ∀ i, i < m →
        (sv.2.take m).getD i 0 = sv.2.getD i 0) ∧
      (∀ sv ∈ ([("time", [0, 1])] : RunRecord),
        (sv.2.take m).length = min m sv.2.length) :=
  clean_results_first_entries sampleRuns 0 [("time", [0, 1])] (by decide)

/-- C9: `clean_results` is idempotent on non-empty collections —
applying it to its own output returns the same collection and the same
`min_steps`. -/
theorem clean_results_idempotent (results : Results) (hne : results ≠ []) :
    clean_results (clean_results results).1 = clean_results results := by
  obtain ⟨p0, ps, rfl⟩ := List.exists_cons_of_ne_nil hne
  set m := (ps.map fun r => timeLen r.2).foldl min (timeLen p0.2) with hm
  have hms : minSteps (p0 :: ps) = some m := minSteps_cons p0 ps
  have hle : ∀ q ∈ p0 :: ps, m ≤ timeLen q.2 := by
    intro q hq
    rcases List.mem_cons.mp hq with rfl | hq'
    · exact foldl_min_le_init _ _
    · exact foldl_min_le_mem _ _ _ (List.mem_map_of_mem _ hq')
  have hfst : (clean_results (p0 :: ps)).1
      = (p0 :: ps).map fun r => (r.1, truncRecord m r.2) :=
    clean_results_fst _ m hms
  have hms2 : minSteps (clean_results (p0 :: ps)).1 = some m := by
    rw [hfst, List.map_cons, minSteps_cons]
    have hseed : timeLen (truncRecord m p0.2) = m := by
      rw [timeLen_truncRecord]
      exact Nat.min_eq_left (hle p0 (List.mem_cons_self _ _))
    have hall : ∀ x ∈ (ps.map fun r => (r.1, truncRecord m r.2)).map
        fun q => timeLen q.2, m ≤ x := by
      intro x hx
      simp only [List.map_map, List.mem_map, Function.comp] at hx
      obtain ⟨r, hr, rfl⟩ := hx
      rw [timeLen_truncRecord]
      exact Nat.le_min.mpr ⟨Nat.le_refl m, hle r (List.mem_cons_of_mem _ hr)⟩
    rw [hseed, foldl_min_of_le _ _ hall]
  have hmapf : ((p0 :: ps).map fun r => (r.1, truncRecord m r.2)).map
      (fun r => (r.1, truncRecord m r.2))
      = (p0 :: ps).map fun r => (r.1, truncRecord m r.2) := by
    rw [List.map_map]
    congr 1
    funext r
    simp [Function.comp, truncRecord_idem]
  have expandL : clean_results (clean_results (p0 :: ps)).1
      = ((clean_results (p0 :: ps)).1.map fun p =>
          (p.1, truncRecord ((minSteps (clean_results (p0 :: ps)).1).getD 0) p.2),
        minSteps (clean_results (p0 :: ps)).1) := rfl
  have expandR : clean_results (p0 :: ps)
      = ((p0 :: ps).map fun p => (p.1, truncRecord m p.2), some m) := by
    rw [show clean_results (p0 :: ps)
      = ((p0 :: ps).map fun p =>
          (p.1, truncRecord ((minSteps (p0 :: ps)).getD 0) p.2),
        minSteps (p0 :: ps)) from rfl, hms]
    rfl
  rw [expandL, hms2, expandR]
  simp only [Option.getD_some]
  rw [hmapf]

/-- C9 witness: aligning the already-aligned sample collection changes
nothing. -/
theorem clean_results_idempotent_witness :
    clean_results (clean_results sampleRuns).1 = clean_results sampleRuns :=
  clean_results_idempotent sampleRuns (by decide)

/-- Entry of a mapped range list below the bound. -/
theorem getD_map_range {β : Type} (f : Nat → β) (n t : Nat) (ht : t < n) (d : β) :
    ((List.range n).map f).getD t d = f t := by
  rw [List.getD_eq_getElem?_getD, List.getElem?_map, List.getElem?_range ht]
  rfl

/-- Entry of a mapped list below the length. -/
theorem getD_map_get {α β : Type} (f : α → β) (l : List α) (i : Nat)
    (hi : i < l.length) (d : β) :
    (l.map f).getD i d = f (l.get ⟨i, hi⟩) := by
  rw [List.getD_eq_getElem?_getD, List.getElem?_map, List.getElem?_eq_getElem hi]
  rfl

/-- Reduction of `format_ssr` on a non-empty collection with
`clean=True`, once the sample record has a `time` key and every
stacked column assignment is length-compatible. -/
theorem format_ssr_clean_eq (k0 : Nat) (r0 : RunRecord) (rest : Results)
    (hT : "time" ∈ r0.map Prod.fst)
    (hall : ((k0, r0) :: rest).all (fun kv =>
      ((r0.map Prod.fst).erase "time").all fun name =>
        (getSeries kv.2 name).length == timeLen r0) = true) :
    format_ssr ((k0, r0) :: rest) true
      = some (((k0, r0) :: rest).length, getSeries r0 "time",
          ((r0.map Prod.fst).erase "time").map fun name =>
            (name, (List.range (timeLen r0)).map fun t =>
              ((k0, r0) :: rest).map fun kv => (getSeries kv.2 name).getD t 0)) := by
  show (if "time" ∈ r0.map Prod.fst then
      if ((k0, r0) :: rest).all (fun kv =>
          ((r0.map Prod.fst).erase "time").all fun name =>
            (getSeries kv.2 name).length == timeLen r0) then
        some (((k0, r0) :: rest).length, getSeries r0 "time",
          ((r0.map Prod.fst).erase "time").map fun name =>
            (name, (List.range (timeLen r0)).map fun t =>
              ((k0, r0) :: rest).map fun kv => (getSeries kv.2 name).getD t 0))
      else none
    else none) = _
  rw [if_pos hT, if_pos hall]

/-- C5: on a non-empty uniform-length collection (every series named by
the sample record, other than `time`, has the common length in every
run), `format_ssr` with `clean=True` returns the run count, the sample
time axis, and per series name one 2-D array — in the row-major
nested-list form that `ndarray.tolist()` serializes into `ssr.json` —
whose outer length is the common time length, whose rows each have
length equal to the run count, and whose column `i` holds the series
values of the `i`-th run in the collection's iteration order. -/
theorem format_ssr_stacked (k0 : Nat) (r0 : RunRecord) (rest : Results)
    (hT : "time" ∈ r0.map Prod.fst)
    (huni : ∀ p ∈ (k0, r0) :: rest, ∀ name ∈ (r0.map Prod.fst).erase "time",
      (getSeries p.2 name).length = timeLen r0) :
    ∃ stacked,
      format_ssr ((k0, r0) :: rest) true
        = some (((k0, r0) :: rest).length, getSeries r0 "time", stacked) ∧
      stacked.map Prod.fst = (r0.map Prod.fst).erase "time" ∧
      ∀ pr ∈ stacked,
        pr.2.length = timeLen r0 ∧
        (∀ row ∈ pr.2, row.length = ((k0, r0) :: rest).length) ∧
        ∀ i, ∀ hi : i < ((k0, r0) :: rest).length, ∀ t, t < timeLen r0 →
          (pr.2.getD t []).getD i 0
            = (getSeries (((k0, r0) :: rest).get ⟨i, hi⟩).2 pr.1).getD t 0 := by
  have hall : ((k0, r0) :: rest).all (fun kv =>
      ((r0.map Prod.fst).erase "time").all fun name =>
        (getSeries kv.2 name).length == timeLen r0) = true := by
    rw [List.all_eq_true]
    intro kv hkv
    rw [List.all_eq_true]
    intro name hname
    exact beq_iff_eq.mpr (huni kv hkv name hname)
  refine ⟨_, format_ssr_clean_eq k0 r0 rest hT hall, ?_, ?_⟩
  · rw [List.map_map]
    simp [Function.comp_def]
  · intro pr hpr
    obtain ⟨name, hname, rfl⟩ := List.mem_map.mp hpr
    refine ⟨by simp, ?_, ?_⟩
    · intro row hrow
      obtain ⟨t, ht, rfl⟩ := List.mem_map.mp hrow
      simp
    · intro i hi t ht
      rw [getD_map_range _ _ t ht, getD_map_get _ _ i hi]

/-- One run with a `time` axis of length 1 and one series `com_1`. -/
def sampleRun1 : RunRecord := [("time", [0]), ("com_1", [7])]

/-- C5 witness: the singleton collection around `sampleRun1`. -/
theorem format_ssr_stacked_witness :
    ∃ stacked,
      format_ssr ((0, sampleRun1) :: []) true
        = some (((0, sampleRun1) :: []).length, getSeries sampleRun1 "time", stacked) ∧
      stacked.map Prod.fst = (sampleRun1.map Prod.fst).erase "time" ∧
      ∀ pr ∈ stacked,
        pr.2.length = timeLen sampleRun1 ∧
        (∀ row ∈ pr.2, row.length = ((0, sampleRun1) :: []).length) ∧
        ∀ i, ∀ hi : i < ((0, sampleRun1) :: []).length, ∀ t, t < timeLen sampleRun1 →
          (pr.2.getD t []).getD i 0
            = (getSeries (((0, sampleRun1) :: []).get ⟨i, hi⟩).2 pr.1).getD t 0 :=
  format_ssr_stacked 0 sampleRun1 [] (by decide) (by decide)

/-- Round trip of a JSON array of numbers. -/
theorem jAsRatListAux_round (l : List ℚ) :
    jAsRatListAux (l.map .num) = some l := by
  induction l with
  | nil => rfl
  | cons q qs ih => simp [jAsRatListAux, ih]

/-- Round trip of a JSON 2-D array. -/
theorem jAsMatrixAux_round (rows : List (List ℚ)) :
    jAsMatrixAux (rows.map fun row => .arr (row.map .num)) = some rows := by
  induction rows with
  | nil => rfl
  | cons r rs ih => simp [jAsMatrixAux, jAsRatList, jAsRatListAux_round, ih]

/-- Round trip of the `results` object. -/
theorem jAsResultsAux_round (res : List (String × List (List ℚ))) :
    jAsResultsAux (res.map fun kv =>
      (kv.1, .arr (kv.2.map fun row => .arr (row.map .num)))) = some res := by
  induction res with
  | nil => rfl
  | cons kv rest ih => simp [jAsResultsAux, jAsMatrix, jAsMatrixAux_round, ih]

/-- C7: round trip of the `ssr.json` export.  Parsing the JSON value
written for any exported triple — run count `num_reps`, time list
`ssr_results_times`, stacked arrays `ssr_results` — reconstructs the
triple exactly.  (The textual encode/decode performed by
`json.dump`/`json.load` is abstracted into the JSON tree; the claim is
stated modulo JSON numeric precision.) -/
theorem ssr_json_round_trip (num_reps : Nat) (times : List ℚ)
    (results : List (String × List (List ℚ))) :
    parseSsr (ssrToJson num_reps times results) = some (num_reps, times, results) := by
  have h1 : jAsNat (.num (num_reps : ℚ)) = some num_reps := by
    simp [jAsNat]
  have h2 : jAsRatList (.arr (times.map .num)) = some times := by
    simp [jAsRatList, jAsRatListAux_round]
  have h3 : jAsResults (.obj (results.map fun kv =>
      (kv.1, .arr (kv.2.map fun row => .arr (row.map .num))))) = some results := by
    simp [jAsResults, jAsResultsAux_round]
  simp [parseSsr, ssrToJson, List.lookup, h1, h2, h3]

/-- C6: the directory prologue of `aggregate_stats` (lines 125-128).
When the results directory does not exist, `NotADirectoryError` is
raised for it and the file system is returned unchanged — in particular
no output directory has been created on this error path.  When the
results directory exists and the output directory does not, the output
directory is created and no directory error is raised. -/
theorem aggregate_stats_dirs_spec (fs : FS) (results_dir output_dir : String) :
    (results_dir ∉ fs →
      aggregate_stats_dirs fs results_dir output_dir = (fs, some results_dir)) ∧
    (results_dir ∈ fs → output_dir ∉ fs →
      aggregate_stats_dirs fs results_dir output_dir = (output_dir :: fs, none)) := by
  constructor
  · intro h
    simp [aggregate_stats_dirs, isdir, h]
  · intro h1 h2
    simp [aggregate_stats_dirs, isdir, h1, h2]

/-- C6 witness: concrete file systems exercising both branches. -/
theorem aggregate_stats_dirs_spec_witness :
    aggregate_stats_dirs ["res"] "missing" "out" = (["res"], some "missing") ∧
    aggregate_stats_dirs ["res"] "res" "out" = ("out" :: ["res"], none) :=
  ⟨(aggregate_stats_dirs_spec ["res"] "missing" "out").1 (by decide),
   (aggregate_stats_dirs_spec ["res"] "res" "out").2 (by decide) (by decide)⟩

end AggregateStats
